import Mathlib

/-!
Verification of the MealMatch weekly meal-plan core (src/app.py,
class MealPlanService): ingredient-coverage scoring, candidate
filtering and ranking, the 7-day assignment loop, the week-boundary
computation and the per-week plan persistence.

Modelling conventions:
* SQLite is dynamically typed, so a quantity read back from the store is
  a number, NULL, or (malformed) text; this is the Qty type below.
  Python float arithmetic is idealised as exact rationals.
* A Python comparison between incompatible values raises TypeError;
  fallible computations therefore live in Except Unit.
* Python dates are modelled by their proleptic-Gregorian ordinal
  (an integer; ordinal 1 is Monday, 0001-01-01, with weekday() = 0).
-/

namespace MealMatch

/-- A dynamically typed quantity cell as read from SQLite. -/
inductive Qty where
  | num (q : ℚ)
  | null
  | text (s : String)
deriving DecidableEq, Repr

/-- Python truthiness of a quantity cell (0, None and "" are falsy). -/
def pyTruthy : Qty → Bool
  | .num q => decide (q ≠ 0)
  | .null => false
  | .text s => decide (s ≠ "")

/-- The source expression x or 0 (app.py line 218). -/
def pyOrZero (x : Qty) : Qty := if pyTruthy x then x else .num 0

/-- Python comparison a >= b on quantity cells: numbers compare numerically,
strings lexicographically; any other combination raises TypeError. -/
def pyGe : Qty → Qty → Except Unit Bool
  | .num a, .num b => .ok (decide (b ≤ a))
  | .text a, .text b => .ok (decide (b ≤ a))
  | _, _ => .error ()

/-- ASCII lower-casing of one character, as Python str.lower does on ASCII. -/
def lowerChar (c : Char) : Char :=
  if 'A' ≤ c ∧ c ≤ 'Z' then Char.ofNat (c.toNat + 32) else c

/-- Python name.lower() (restricted to ASCII, which is all the core needs). -/
def pyLower (s : String) : String := ⟨s.data.map lowerChar⟩

/-- A row of the ingredients table for one user (app.py line 202). -/
structure InvRow where
  name : String
  quantity : Qty
  unit : String
deriving DecidableEq, Repr

/-- A row of the recipe_ingredients table (app.py line 213). -/
structure ReqRow where
  ingredient_name : String
  required_quantity : Qty
  unit : String
deriving DecidableEq, Repr

/-- A recipe together with its requirement rows. -/
structure Recipe where
  id : Nat
  title : String
  description : String
  ingredients : List ReqRow
deriving DecidableEq, Repr

/-- The inventory dict of app.py lines 203-205: keys are lower-cased names,
assignment overwrites, so prepending and taking the first lookup hit gives
the Python dict's last-write-wins reads. -/
def buildInv (rows : List InvRow) : List (String × Qty × String) :=
  rows.foldl (fun inv r => (pyLower r.name, r.quantity, r.unit) :: inv) []

/-- One element of recipe_list (app.py lines 222-229). -/
structure ScoredRecipe where
  id : Nat
  title : String
  description : String
  available : Nat
  total : Nat
  percent : ℚ
deriving DecidableEq, Repr

/-- The availability count of app.py lines 215-220: for each requirement,
name = lower-cased ingredient name, required = required_quantity or 0, and
the row counts when name is in the inventory dict and the stored quantity
compares >= required; that comparison can raise. -/
def countAvailable (inv : List (String × Qty × String)) : List ReqRow → Except Unit Nat
  | [] => .ok 0
  | ri :: rest =>
    let required := pyOrZero ri.required_quantity
    match (match inv.lookup (pyLower ri.ingredient_name) with
           | none => Except.ok false
           | some (q, _) => pyGe q required) with
    | .error e => .error e
    | .ok hit =>
      match countAvailable inv rest with
      | .error e => .error e
      | .ok n => .ok (if hit then n + 1 else n)

/-- Scoring of one recipe (app.py lines 214-229):
percent = available / total * 100 if total > 0 else 0. -/
def scoreRecipe (inv : List (String × Qty × String)) (rec : Recipe) :
    Except Unit ScoredRecipe :=
  match countAvailable inv rec.ingredients with
  | .error e => .error e
  | .ok available =>
    .ok { id := rec.id, title := rec.title, description := rec.description,
          available := available, total := rec.ingredients.length,
          percent := if 0 < rec.ingredients.length then
              (available : ℚ) / (rec.ingredients.length : ℚ) * 100
            else 0 }

/-- The recipe_list loop of app.py lines 209-229; a raised comparison
propagates out of the loop. -/
def scoreRecipes (inv : List (String × Qty × String)) :
    List Recipe → Except Unit (List ScoredRecipe)
  | [] => .ok []
  | rec :: rest =>
    match scoreRecipe inv rec with
    | .error e => .error e
    | .ok s =>
      match scoreRecipes inv rest with
      | .error e => .error e
      | .ok tail => .ok (s :: tail)

/-- The comparator induced by the sort key (-percent, title) of app.py
line 233, as a boolean total preorder. -/
def candidateLE (x y : ScoredRecipe) : Bool :=
  decide (y.percent < x.percent) ||
    (decide (x.percent = y.percent) && decide (x.title ≤ y.title))

/-- app.py lines 232-233: keep scored recipes with total > 0 and
percent >= 50, then stable-sort by (-percent, title). Python list.sort and
List.mergeSort are both stable, so they compute the same list. -/
def rankCandidates (scored : List ScoredRecipe) : List ScoredRecipe :=
  (scored.filter fun r => decide (0 < r.total) && decide ((50 : ℚ) ≤ r.percent)).mergeSort
    candidateLE

/-- One entry of the stored plan list. The Python dict for a sentinel day has
no recipe_id key; matchPct renders the dict key match. -/
structure DayAssignment where
  day : Nat
  title : String
  matchPct : ℚ
  recipe_id : Option Nat
deriving DecidableEq, Repr

/-- The sentinel day of app.py line 240. -/
def sentinel (d : Nat) : DayAssignment :=
  { day := d, title := "No suitable recipe", matchPct := 0, recipe_id := none }

/-- A day assigned from a chosen candidate (app.py lines 242-248). -/
def mkAssign (d : Nat) (c : ScoredRecipe) : DayAssignment :=
  { day := d, title := c.title, matchPct := c.percent, recipe_id := some c.id }

/-- candidates[i % len(candidates)] for a nonempty candidate list. -/
def cyclicPick (c : ScoredRecipe) (cs : List ScoredRecipe) (i : Nat) : ScoredRecipe :=
  (c :: cs).get ⟨i % (c :: cs).length, Nat.mod_lt _ (Nat.succ_pos _)⟩

/-- The day appended by one loop iteration (app.py lines 239-248). -/
def nextEntry (candidates : List ScoredRecipe) (plan : List DayAssignment) (i : Nat) :
    DayAssignment :=
  match candidates with
  | [] => sentinel (plan.length + 1)
  | c :: cs => mkAssign (plan.length + 1) (cyclicPick c cs i)

/-- The while-loop of app.py lines 236-251: while len(plan) < 7 append a day,
then i += 1, and break once i > 100. The fuel argument only makes the
recursion structural: fuel 101 strictly dominates the loop's own
100-increment break, so the fuel-exhaustion branch is unreachable from
every entry the program uses. -/
def planLoopF : Nat → List ScoredRecipe → List DayAssignment → Nat → List DayAssignment
  | 0, _, plan, _ => plan
  | fuel + 1, candidates, plan, i =>
    if plan.length < 7 then
      let plan' := plan ++ [nextEntry candidates plan i]
      if i + 1 > 100 then plan' else planLoopF fuel candidates plan' (i + 1)
    else plan

/-- The iteration count of the same loop, for the safety-bound analysis. -/
def planIters : Nat → List ScoredRecipe → List DayAssignment → Nat → Nat
  | 0, _, _, _ => 0
  | fuel + 1, candidates, plan, i =>
    if plan.length < 7 then
      if i + 1 > 100 then 1
      else 1 + planIters fuel candidates (plan ++ [nextEntry candidates plan i]) (i + 1)
    else 0

/-- The weekly plan list built from the candidate list (plan = [], i = 0). -/
def generateDays (candidates : List ScoredRecipe) : List DayAssignment :=
  planLoopF 101 candidates [] 0

/-- A slimmed candidate as persisted (app.py lines 254-263). -/
structure SlimCandidate where
  id : Nat
  title : String
  percent : ℚ
  available : Nat
  total : Nat
deriving DecidableEq, Repr

def slimCandidates (cs : List ScoredRecipe) : List SlimCandidate :=
  cs.map fun c =>
    { id := c.id, title := c.title, percent := c.percent,
      available := c.available, total := c.total }

/-- MealPlanService._generate_plan on already-fetched inventory rows and
recipes: score, filter and rank, run the 7-day loop, slim the candidates. -/
def generatePlan (rows : List InvRow) (recipes : List Recipe) :
    Except Unit (List DayAssignment × List SlimCandidate) :=
  match scoreRecipes (buildInv rows) recipes with
  | .error e => .error e
  | .ok scored =>
    let candidates := rankCandidates scored
    .ok (generateDays candidates, slimCandidates candidates)

/-- Python date.weekday() on the proleptic-Gregorian ordinal n
(ordinal 1 is a Monday and has weekday 0); Python % on a positive modulus
agrees with Int.emod. -/
def weekday (n : Int) : Int := (n - 1) % 7

/-- MealPlanService._get_week_start (app.py lines 168-170):
a_date - timedelta(days=a_date.weekday()). -/
def weekStart (n : Int) : Int := n - weekday n

/-- What the stored plan_json column can deserialize to: a falsy column
(the code substitutes the empty dict), a payload on which json.loads or the
dict reads raise (the except branch of app.py lines 187-189), or a record
whose plan and candidates fields are each present or absent. -/
inductive StoredPayload where
  | empty
  | malformed
  | record (plan? : Option (List DayAssignment)) (candidates? : Option (List SlimCandidate))
deriving DecidableEq

/-- app.py lines 183-189: payload.get("plan", []) and
payload.get("candidates", []), with the except branch and the falsy-column
default both yielding empty lists. -/
def parsePayload : StoredPayload → List DayAssignment × List SlimCandidate
  | .empty => ([], [])
  | .malformed => ([], [])
  | .record p c => (p.getD [], c.getD [])

/-- A row of the mealplans table. -/
structure MealPlanRow where
  user_id : Nat
  week_start : Int
  generated_on : String
  plan_json : StoredPayload
deriving DecidableEq

/-- The dict returned by get_or_create_weekly_plan. -/
structure PlanResult where
  plan : List DayAssignment
  generated_on : String
  week_start : Int
  candidates : List SlimCandidate
deriving DecidableEq

/-- The relational store as read by the meal-plan service. -/
structure DB where
  mealplans : List MealPlanRow
  ingredients : List (Nat × InvRow)
  recipes : List Recipe
deriving DecidableEq

/-- SELECT name, quantity, unit FROM ingredients WHERE user_id = ? -/
def listInventoryRows (db : DB) (u : Nat) : List InvRow :=
  db.ingredients.filterMap fun p => if p.1 = u then some p.2 else none

/-- The WHERE clause user_id = ? AND week_start = ? of the plan lookup. -/
def planKey (u : Nat) (week : Int) (r : MealPlanRow) : Bool :=
  r.user_id == u && r.week_start == week

/-- MealPlanService.get_or_create_weekly_plan (app.py lines 174-197) for a
fixed current date today (an ordinal) and clock reading now: return the
deserialized stored row if one matches (user, week start), otherwise
generate, insert and return. A raised generation error propagates. -/
def getOrCreate (u : Nat) (today : Int) (now : String) (db : DB) :
    Except Unit (PlanResult × DB) :=
  match db.mealplans.find? (planKey u (weekStart today)) with
  | some row =>
    .ok ({ plan := (parsePayload row.plan_json).1, generated_on := row.generated_on,
           week_start := weekStart today, candidates := (parsePayload row.plan_json).2 }, db)
  | none =>
    match generatePlan (listInventoryRows db u) db.recipes with
    | .error e => .error e
    | .ok pc =>
      .ok ({ plan := pc.1, generated_on := now, week_start := weekStart today,
             candidates := pc.2 },
           { db with
             mealplans := db.mealplans ++
               [⟨u, weekStart today, now, .record (some pc.1) (some pc.2)⟩] })

/-! ## Spec-side definitions (refinement targets, from the words of the spec) -/

/-- Numeric value of a quantity cell; spec-side quantities are numeric. -/
def qtyVal : Qty → ℚ
  | .num q => q
  | .null => 0
  | .text _ => 0

/-- Spec-side hit test: the requirement's ingredient name, compared
case-insensitively, is present in the inventory and the inventory quantity
is >= the required quantity. -/
def specHit (inv : List (String × Qty × String)) (ri : ReqRow) : Bool :=
  match inv.lookup (pyLower ri.ingredient_name) with
  | some (q, _) => decide (qtyVal ri.required_quantity ≤ qtyVal q)
  | none => false

/-- Spec-side score of one recipe: availableCount counts the satisfied
requirements, totalCount counts all requirements, and
matchPercent = availableCount / totalCount * 100, or 0 when totalCount = 0. -/
def specScore (inv : List (String × Qty × String)) (rec : Recipe) : ScoredRecipe :=
  { id := rec.id, title := rec.title, description := rec.description,
    available := (rec.ingredients.filter (specHit inv)).length,
    total := rec.ingredients.length,
    percent := if 0 < rec.ingredients.length then
        ((rec.ingredients.filter (specHit inv)).length : ℚ) /
          (rec.ingredients.length : ℚ) * 100
      else 0 }

/-- A quantity cell holding an actual number. -/
def isNum : Qty → Bool
  | .num _ => true
  | _ => false

/-- Every inventory row carries a numeric quantity. -/
def wfInvRows (rows : List InvRow) : Bool := rows.all fun r => isNum r.quantity

/-- Every requirement of every recipe carries a numeric quantity. -/
def wfRecipes (recipes : List Recipe) : Bool :=
  recipes.all fun rec => rec.ingredients.all fun ri => isNum ri.required_quantity

/-! ## Loop computation lemmas -/

lemma generateDays_nil :
    generateDays [] = (List.range 7).map fun k => sentinel (k + 1) := rfl

lemma generateDays_cons (c : ScoredRecipe) (cs : List ScoredRecipe) :
    generateDays (c :: cs) =
      (List.range 7).map fun k => mkAssign (k + 1) (cyclicPick c cs k) := rfl

lemma planLoopF_length (fuel : Nat) :
    ∀ (c : List ScoredRecipe) (plan : List DayAssignment) (i : Nat),
      plan.length ≤ 7 → 7 - plan.length ≤ fuel → i + (7 - plan.length) ≤ 101 →
      (planLoopF fuel c plan i).length = 7 := by
  induction fuel with
  | zero =>
    intro c plan i h1 h2 _
    have : plan.length = 7 := by omega
    simpa [planLoopF] using this
  | succ fuel ih =>
    intro c plan i h1 h2 h3
    rw [planLoopF]
    by_cases hlt : plan.length < 7
    · rw [if_pos hlt]
      have hlen : (plan ++ [nextEntry c plan i]).length = plan.length + 1 := by
        simp
      by_cases hbrk : i + 1 > 100
      · rw [if_pos hbrk]
        have : plan.length = 6 := by omega
        omega
      · rw [if_neg hbrk]
        have := ih c (plan ++ [nextEntry c plan i]) (i + 1)
          (by omega) (by omega) (by omega)
        simpa [hlen] using this
    · rw [if_neg hlt]
      omega

lemma planIters_le (fuel : Nat) :
    ∀ (c : List ScoredRecipe) (plan : List DayAssignment) (i : Nat),
      planIters fuel c plan i ≤ 7 - plan.length := by
  induction fuel with
  | zero => intro c plan i; simp [planIters]
  | succ fuel ih =>
    intro c plan i
    rw [planIters]
    by_cases hlt : plan.length < 7
    · rw [if_pos hlt]
      by_cases hbrk : i + 1 > 100
      · rw [if_pos hbrk]; omega
      · rw [if_neg hbrk]
        have := ih c (plan ++ [nextEntry c plan i]) (i + 1)
        have hlen : (plan ++ [nextEntry c plan i]).length = plan.length + 1 := by
          simp
        omega
    · rw [if_neg hlt]; omega

lemma planLoopF_length_iters (fuel : Nat) :
    ∀ (c : List ScoredRecipe) (plan : List DayAssignment) (i : Nat),
      (planLoopF fuel c plan i).length = plan.length + planIters fuel c plan i := by
  induction fuel with
  | zero => intro c plan i; simp [planLoopF, planIters]
  | succ fuel ih =>
    intro c plan i
    rw [planLoopF, planIters]
    by_cases hlt : plan.length < 7
    · rw [if_pos hlt, if_pos hlt]
      by_cases hbrk : i + 1 > 100
      · rw [if_pos hbrk, if_pos hbrk]; simp
      · rw [if_neg hbrk, if_neg hbrk]
        have := ih c (plan ++ [nextEntry c plan i]) (i + 1)
        simp at this
        omega
    · rw [if_neg hlt, if_neg hlt]; omega

/-! ## C8: week boundary -/

/-- C8: for every date d (as a proleptic-Gregorian ordinal), _get_week_start
returns the Monday on or before d: the result has weekday 0 (Monday, ISO
convention) and d minus the result is between 0 and 6 days. -/
theorem week_start_is_monday_on_or_before (n : Int) :
    weekday (weekStart n) = 0 ∧ 0 ≤ n - weekStart n ∧ n - weekStart n ≤ 6 := by
  unfold weekStart weekday
  omega

/-! ## C2: the assignment algorithm -/

/-- C2: the plan builder fills days 1..7 with a cursor starting at 0 and
incremented after every day; with an empty candidate list every day is the
sentinel (title "No suitable recipe", match 0, no recipe reference), and
otherwise day d receives candidates[(d-1) mod len(candidates)]; in
particular two candidates alternate C1,C2,C1,C2,C1,C2,C1. -/
theorem assignment_cycles_candidates :
    (generateDays [] = (List.range 7).map fun k => sentinel (k + 1))
    ∧ (∀ (c : ScoredRecipe) (cs : List ScoredRecipe),
        generateDays (c :: cs) =
          (List.range 7).map fun k => mkAssign (k + 1) (cyclicPick c cs k))
    ∧ (∀ c1 c2 : ScoredRecipe,
        generateDays [c1, c2] =
          [mkAssign 1 c1, mkAssign 2 c2, mkAssign 3 c1, mkAssign 4 c2,
           mkAssign 5 c1, mkAssign 6 c2, mkAssign 7 c1]) :=
  ⟨generateDays_nil, generateDays_cons, fun c1 c2 => by
    rw [generateDays_cons]
    simp [cyclicPick, List.range_succ]⟩

/-! ## C4: the plan always has exactly 7 days -/

/-- C4: for every candidate list (length 0, 1, or many) the plan builder
returns exactly 7 day assignments; the loop terminates by construction
(planLoopF is a total function). -/
theorem plan_has_seven_days (candidates : List ScoredRecipe) :
    (generateDays candidates).length = 7 :=
  planLoopF_length 101 candidates [] 0 (by simp) (by simp) (by simp)

/-! ## C9: the safety bound -/

/-- C9 counterexample: entered at the safety bound (cursor 100) with no days
produced yet, the loop appends one day, hits the break and returns a 1-day
plan as an ordinary value; nothing in the builder's return type carries an
error, so the bound being reached is silently truncated, not surfaced as an
internal failure as the claim states. -/
theorem safety_bound_truncates_silently :
    planLoopF 101 [] [] 100 = [sentinel 1] ∧ (planLoopF 101 [] [] 100).length < 7 :=
  ⟨rfl, by decide⟩

/-- C9 amended: the assignment loop always terminates, executing at most
7 - len(plan) iterations from any entry state (each iteration appends
exactly one day), hence at most 7 and well within the 100-increment cap;
from the real entry (empty plan, cursor 0) it runs exactly 7 iterations and
the cap is never reached; when the break does fire early (anomalous
cursor), the loop silently returns the short plan with no error surfaced. -/
theorem safety_bound_analysis :
    (∀ (fuel : Nat) (c : List ScoredRecipe) (plan : List DayAssignment) (i : Nat),
        planIters fuel c plan i ≤ 7)
    ∧ (∀ (fuel : Nat) (c : List ScoredRecipe) (plan : List DayAssignment) (i : Nat),
        (planLoopF fuel c plan i).length = plan.length + planIters fuel c plan i)
    ∧ (∀ c : List ScoredRecipe, planIters 101 c [] 0 = 7) := by
  refine ⟨fun fuel c plan i => ?_, fun fuel c plan i => planLoopF_length_iters fuel c plan i,
    fun c => ?_⟩
  · have := planIters_le fuel c plan i
    omega
  · have h1 := planLoopF_length_iters 101 c [] 0
    have h2 := planLoopF_length 101 c [] 0 (by simp) (by simp) (by simp)
    simp at h1
    omega

/-! ## Scoring refinement lemmas -/

lemma pyOrZero_num (b : ℚ) : pyOrZero (.num b) = .num b := by
  by_cases h : b = 0 <;> simp [pyOrZero, pyTruthy, h]

lemma lookup_mem {β : Type} {l : List (String × β)} {k : String} {v : β}
    (h : l.lookup k = some v) : (k, v) ∈ l := by
  induction l with
  | nil => simp [List.lookup] at h
  | cons p rest ih =>
    obtain ⟨k', v'⟩ := p
    rw [List.lookup] at h
    cases hbeq : (k == k') with
    | true =>
      rw [hbeq] at h
      have hk : k = k' := eq_of_beq hbeq
      have hv : v' = v := by simpa using h
      simp [hk, hv]
    | false =>
      rw [hbeq] at h
      exact List.mem_cons_of_mem _ (ih h)

lemma foldl_cons_eq (f : InvRow → String × Qty × String) (rows : List InvRow) :
    ∀ acc, rows.foldl (fun inv r => f r :: inv) acc = (rows.map f).reverse ++ acc := by
  induction rows with
  | nil => intro acc; simp
  | cons r rest ih => intro acc; simp [ih]

lemma buildInv_eq (rows : List InvRow) :
    buildInv rows = (rows.map fun r => (pyLower r.name, r.quantity, r.unit)).reverse := by
  unfold buildInv
  rw [foldl_cons_eq]
  simp

lemma buildInv_lookup_isNum (rows : List InvRow) (hw : wfInvRows rows = true) :
    ∀ k q u, (buildInv rows).lookup k = some (q, u) → isNum q = true := by
  intro k q u hlk
  have hm := lookup_mem hlk
  rw [buildInv_eq, List.mem_reverse, List.mem_map] at hm
  obtain ⟨r, hr, hf⟩ := hm
  have hq : r.quantity = q := congrArg (fun p => p.2.1) hf
  rw [← hq]
  exact List.all_eq_true.mp hw r hr

lemma countAvailable_wf (inv : List (String × Qty × String))
    (hinv : ∀ k q u, inv.lookup k = some (q, u) → isNum q = true) :
    ∀ reqs : List ReqRow, (reqs.all fun ri => isNum ri.required_quantity) = true →
      countAvailable inv reqs = .ok ((reqs.filter (specHit inv)).length) := by
  intro reqs
  induction reqs with
  | nil => intro _; rfl
  | cons ri rest ih =>
    intro hall
    rw [List.all_cons, Bool.and_eq_true] at hall
    obtain ⟨h1, h2⟩ := hall
    obtain ⟨b, hb⟩ : ∃ b, ri.required_quantity = .num b := by
      cases hq : ri.required_quantity with
      | num q => exact ⟨q, rfl⟩
      | null => rw [hq] at h1; simp [isNum] at h1
      | text s => rw [hq] at h1; simp [isNum] at h1
    cases hlk : inv.lookup (pyLower ri.ingredient_name) with
    | none =>
      simp only [countAvailable, hlk, ih h2, specHit, List.filter_cons]
      simp
    | some qu =>
      obtain ⟨q, u⟩ := qu
      have hn := hinv _ _ _ hlk
      obtain ⟨a, ha⟩ : ∃ a, q = .num a := by
        cases hqq : q with
        | num x => exact ⟨x, rfl⟩
        | null => rw [hqq] at hn; simp [isNum] at hn
        | text s => rw [hqq] at hn; simp [isNum] at hn
      subst ha
      simp only [countAvailable, hlk, hb, pyOrZero_num, pyGe, ih h2, specHit, qtyVal,
        List.filter_cons]
      by_cases hba : b ≤ a <;> simp [hba]

lemma scoreRecipe_wf (inv : List (String × Qty × String))
    (hinv : ∀ k q u, inv.lookup k = some (q, u) → isNum q = true) (rec : Recipe)
    (hr : (rec.ingredients.all fun ri => isNum ri.required_quantity) = true) :
    scoreRecipe inv rec = .ok (specScore inv rec) := by
  unfold scoreRecipe
  rw [countAvailable_wf inv hinv rec.ingredients hr]
  rfl

lemma scoreRecipes_wf (inv : List (String × Qty × String))
    (hinv : ∀ k q u, inv.lookup k = some (q, u) → isNum q = true) :
    ∀ recipes : List Recipe, wfRecipes recipes = true →
      scoreRecipes inv recipes = .ok (recipes.map (specScore inv)) := by
  intro recipes
  induction recipes with
  | nil => intro _; rfl
  | cons rec rest ih =>
    intro hall
    rw [wfRecipes, List.all_cons, Bool.and_eq_true] at hall
    obtain ⟨h1, h2⟩ := hall
    simp only [scoreRecipes, scoreRecipe_wf inv hinv rec h1, ih h2, List.map_cons]

/-! ## C1: coverage scoring -/

/-- C1: on well-formed (numeric) quantity data, the scorer computes, for
every recipe, availableCount as the number of requirements whose
ingredient name compared case-insensitively is present in the inventory
with inventory quantity >= required quantity (the spec-side specScore),
totalCount as the number of requirements, and matchPercent as
availableCount/totalCount*100 when totalCount > 0 and 0 otherwise; and
availableCount <= totalCount for every recipe. -/
theorem coverage_scoring_correct (rows : List InvRow) (recipes : List Recipe)
    (h1 : wfInvRows rows = true) (h2 : wfRecipes recipes = true) :
    scoreRecipes (buildInv rows) recipes = .ok (recipes.map (specScore (buildInv rows)))
    ∧ ∀ s ∈ recipes.map (specScore (buildInv rows)),
        s.available ≤ s.total ∧
          s.percent = (if 0 < s.total then (s.available : ℚ) / (s.total : ℚ) * 100 else 0) := by
  constructor
  · exact scoreRecipes_wf _ (buildInv_lookup_isNum rows h1) recipes h2
  · intro s hs
    rw [List.mem_map] at hs
    obtain ⟨rec, _, rfl⟩ := hs
    exact ⟨List.length_filter_le _ _, rfl⟩

/-- The worked example of spec section 8. -/
def exInvRows : List InvRow :=
  [⟨"Egg", .num 6, "pcs"⟩, ⟨"Flour", .num 2, "cups"⟩]

def exRecipes : List Recipe :=
  [⟨1, "Pancakes", "flat", [⟨"egg", .num 2, "pcs"⟩, ⟨"flour", .num 1, "cups"⟩]⟩,
   ⟨2, "Omelette", "fluffy", [⟨"Egg", .num 1, "pcs"⟩, ⟨"milk", .num 1, "cups"⟩]⟩,
   ⟨3, "Milkshake", "cold", [⟨"milk", .num 1, "cups"⟩]⟩]

/-- C1 witness: the scorer agrees with the spec-side score on the worked
example of spec section 8. -/
theorem coverage_scoring_correct_witness :
    scoreRecipes (buildInv exInvRows) exRecipes =
      .ok (exRecipes.map (specScore (buildInv exInvRows))) :=
  (coverage_scoring_correct exInvRows exRecipes (by decide) (by decide)).1

/-! ## C6: malformed quantities -/

def badInvRows : List InvRow := [⟨"egg", .text "six", "pcs"⟩]

def badRecipe : Recipe := ⟨7, "Omelette", "plain", [⟨"Egg", .num 1, "pcs"⟩]⟩

/-- C6 counterexample: an inventory row whose quantity is non-numeric text
is not treated as 0: the comparison inventory quantity >= required raises
(TypeError, modelled as Except.error) and the scorer does not complete
normally. -/
theorem malformed_quantity_raises :
    scoreRecipes (buildInv badInvRows) [badRecipe] = .error () := rfl

/-- C6 amended: only a null (missing) required quantity is defaulted, via
the expression required_quantity or 0: the scorer treats such a requirement
exactly as one requiring quantity 0, so null required quantities never
raise; non-numeric text quantities reaching the comparison raise instead. -/
theorem null_required_quantity_as_zero (inv : List (String × Qty × String))
    (name unit : String) (rest : List ReqRow) :
    countAvailable inv
        ({ ingredient_name := name, required_quantity := .null, unit := unit } :: rest)
      = countAvailable inv
        ({ ingredient_name := name, required_quantity := .num 0, unit := unit } :: rest) := rfl

/-! ## C3: candidate filter and ranking -/

lemma candidateLE_trans (a b c : ScoredRecipe) (h1 : candidateLE a b = true)
    (h2 : candidateLE b c = true) : candidateLE a c = true := by
  simp only [candidateLE, Bool.or_eq_true, Bool.and_eq_true, decide_eq_true_eq] at h1 h2 ⊢
  rcases h1 with h1 | ⟨h1e, h1t⟩ <;> rcases h2 with h2 | ⟨h2e, h2t⟩
  · exact Or.inl (h2.trans h1)
  · exact Or.inl (lt_of_eq_of_lt h2e.symm h1)
  · exact Or.inl (lt_of_lt_of_eq h2 h1e.symm)
  · exact Or.inr ⟨h1e.trans h2e, h1t.trans h2t⟩

lemma candidateLE_total (a b : ScoredRecipe) :
    (candidateLE a b || candidateLE b a) = true := by
  simp only [candidateLE, Bool.or_eq_true, Bool.and_eq_true, decide_eq_true_eq]
  rcases lt_trichotomy a.percent b.percent with h | h | h
  · exact Or.inr (Or.inl h)
  · rcases le_total a.title b.title with ht | ht
    · exact Or.inl (Or.inr ⟨h, ht⟩)
    · exact Or.inr (Or.inr ⟨h.symm, ht⟩)
  · exact Or.inl (Or.inl h)

/-- C3: the candidate list consists exactly of the scored recipes with
totalCount > 0 and matchPercent >= 50, ordered by descending matchPercent
with ties broken by ascending title: adjacent candidates have
non-increasing matchPercent, and equal-matchPercent neighbours have
non-decreasing titles. -/
theorem candidate_filter_and_order (scored : List ScoredRecipe) :
    (rankCandidates scored).Perm
        (scored.filter fun r => decide (0 < r.total) && decide ((50 : ℚ) ≤ r.percent))
    ∧ (∀ r : ScoredRecipe,
        r ∈ rankCandidates scored ↔ r ∈ scored ∧ 0 < r.total ∧ (50 : ℚ) ≤ r.percent)
    ∧ (rankCandidates scored).Chain' fun x y =>
        y.percent ≤ x.percent ∧ (x.percent = y.percent → x.title ≤ y.title) := by
  have hperm :
      (rankCandidates scored).Perm
        (scored.filter fun r => decide (0 < r.total) && decide ((50 : ℚ) ≤ r.percent)) :=
    List.mergeSort_perm _ _
  refine ⟨hperm, ?_, ?_⟩
  · intro r
    rw [hperm.mem_iff, List.mem_filter]
    simp
  · have hs := List.sorted_mergeSort candidateLE_trans candidateLE_total
      (scored.filter fun r => decide (0 < r.total) && decide ((50 : ℚ) ≤ r.percent))
    refine List.Pairwise.chain' (List.Pairwise.imp ?_ hs)
    intro a b h
    simp only [candidateLE, Bool.or_eq_true, Bool.and_eq_true, decide_eq_true_eq] at h
    rcases h with h | ⟨he, ht⟩
    · exact ⟨le_of_lt h, fun heq => absurd heq h.ne'⟩
    · exact ⟨le_of_eq he.symm, fun _ => ht⟩

def exScored : ScoredRecipe := ⟨9, "Stew", "thick", 1, 1, 100⟩

/-- C3 witness: the ranked candidate list of a concrete scored list is a
permutation of its filtered form. -/
theorem candidate_filter_and_order_witness :
    (rankCandidates [exScored]).Perm
      ([exScored].filter fun r => decide (0 < r.total) && decide ((50 : ℚ) ≤ r.percent)) :=
  (candidate_filter_and_order [exScored]).1

/-! ## C5: weekly idempotence of get_or_create_weekly_plan -/

/-- C5: with the current date fixed, a second call in the same ISO week with
no plan deletion in between finds the row persisted under (userId,
weekStart) and returns the stored plan and candidates unchanged without
regenerating: if the first call returned (r1, s1) then a call on state s1
returns exactly (r1, s1), whatever the second call's clock reading is. -/
theorem get_or_create_weekly_idempotent (u : Nat) (today : Int) (now1 now2 : String)
    (db0 : DB) (r1 : PlanResult) (s1 : DB)
    (h : getOrCreate u today now1 db0 = .ok (r1, s1)) :
    getOrCreate u today now2 s1 = .ok (r1, s1) := by
  unfold getOrCreate at h ⊢
  cases hfind : db0.mealplans.find? (planKey u (weekStart today)) with
  | some row =>
    rw [hfind] at h
    simp only [Except.ok.injEq, Prod.mk.injEq] at h
    obtain ⟨hr1, hs1⟩ := h
    subst hs1
    rw [hfind]
    dsimp only
    rw [hr1]
  | none =>
    rw [hfind] at h
    cases hgen : generatePlan (listInventoryRows db0 u) db0.recipes with
    | error e => rw [hgen] at h; exact absurd h (by simp)
    | ok pc =>
      rw [hgen] at h
      simp only [Except.ok.injEq, Prod.mk.injEq] at h
      obtain ⟨hr1, hs1⟩ := h
      subst hs1
      have hfind2 :
          (db0.mealplans ++
              [(⟨u, weekStart today, now1,
                  .record (some pc.1) (some pc.2)⟩ : MealPlanRow)]).find?
              (planKey u (weekStart today)) =
            some ⟨u, weekStart today, now1, .record (some pc.1) (some pc.2)⟩ := by
        rw [List.find?_append, hfind]
        simp [planKey]
      dsimp only
      rw [hfind2]
      dsimp only [parsePayload, Option.getD_some]
      rw [hr1]


def exRow2 : MealPlanRow :=
  ⟨2, weekStart 738600, "2024-04-01T07:00:00", .record (some []) (some [])⟩

def exDB2 : DB := ⟨[exRow2], [], []⟩

/-- C5 witness: on a concrete store already holding this week's row, a
repeated call returns the identical result and leaves the store unchanged. -/
theorem get_or_create_weekly_idempotent_witness :
    getOrCreate 2 738600 "2024-04-03T12:00:00" exDB2 =
      .ok ({ plan := [], generated_on := "2024-04-01T07:00:00",
             week_start := weekStart 738600, candidates := [] }, exDB2) :=
  get_or_create_weekly_idempotent 2 738600 "2024-04-02T10:00:00" "2024-04-03T12:00:00"
    exDB2 _ exDB2 (by rfl)

/-! ## C7: corrupt persisted payloads -/

/-- C7: when the persisted row's payload is unparseable,
get_or_create_weekly_plan returns an empty plan and empty candidate list
instead of raising; and when a parseable payload lacks the plan or the
candidates field, the absent field defaults to the empty sequence. -/
theorem corrupt_payload_degrades (u : Nat) (today : Int) (now : String) (db0 : DB)
    (row : MealPlanRow)
    (hfind : db0.mealplans.find? (planKey u (weekStart today)) = some row) :
    (row.plan_json = .malformed →
      getOrCreate u today now db0 =
        .ok ({ plan := [], generated_on := row.generated_on,
               week_start := weekStart today, candidates := [] }, db0))
    ∧ (∀ cs, row.plan_json = .record none cs →
      getOrCreate u today now db0 =
        .ok ({ plan := [], generated_on := row.generated_on,
               week_start := weekStart today, candidates := cs.getD [] }, db0))
    ∧ (∀ ps, row.plan_json = .record ps none →
      getOrCreate u today now db0 =
        .ok ({ plan := ps.getD [], generated_on := row.generated_on,
               week_start := weekStart today, candidates := [] }, db0)) := by
  refine ⟨fun hm => ?_, fun cs hm => ?_, fun ps hm => ?_⟩ <;>
    · unfold getOrCreate
      rw [hfind]
      dsimp only
      rw [hm]
      rfl

def exRow3 : MealPlanRow := ⟨1, weekStart 738500, "2024-01-02T08:00:00", .malformed⟩

def exDB3 : DB := ⟨[exRow3], [], []⟩

/-- C7 witness: a concrete store whose persisted payload is unparseable
degrades to an empty plan and candidate list. -/
theorem corrupt_payload_degrades_witness :
    getOrCreate 1 738500 "2024-01-05T09:00:00" exDB3 =
      .ok ({ plan := [], generated_on := "2024-01-02T08:00:00",
             week_start := weekStart 738500, candidates := [] }, exDB3) :=
  (corrupt_payload_degrades 1 738500 "2024-01-05T09:00:00" exDB3 exRow3 (by rfl)).1 rfl

/-! ## C10: plan-shape invariant -/

lemma mem_rankCandidates (scored : List ScoredRecipe) (x : ScoredRecipe)
    (hx : x ∈ rankCandidates scored) : 0 < x.total ∧ (50 : ℚ) ≤ x.percent := by
  unfold rankCandidates at hx
  rw [List.mem_mergeSort, List.mem_filter] at hx
  simpa using hx.2

/-- C10: every plan produced from a candidate list has its 7 entries
numbered day 1..7 in positional order, and is all-or-nothing: with an empty
candidate list every entry is the sentinel, and otherwise every entry
carries a recipe_id and match value copied from some candidate, whose
matchPercent is at least 50 because of the candidate filter. -/
theorem plan_shape_invariant (scored : List ScoredRecipe) :
    ((generateDays (rankCandidates scored)).map fun d => d.day) = [1, 2, 3, 4, 5, 6, 7]
    ∧ (rankCandidates scored = [] →
        generateDays (rankCandidates scored) = (List.range 7).map fun k => sentinel (k + 1))
    ∧ (rankCandidates scored ≠ [] →
        (generateDays (rankCandidates scored)).all (fun d =>
          (rankCandidates scored).any fun c =>
            d.recipe_id == some c.id && d.matchPct == c.percent &&
              decide ((50 : ℚ) ≤ c.percent)) = true) := by
  refine ⟨?_, fun h => by rw [h]; exact generateDays_nil, fun h => ?_⟩
  · cases hc : rankCandidates scored with
    | nil => rw [generateDays_nil]; rfl
    | cons c cs => rw [generateDays_cons]; rfl
  · obtain ⟨c, cs, hc⟩ : ∃ c cs, rankCandidates scored = c :: cs := by
      cases hcc : rankCandidates scored with
      | nil => exact absurd hcc h
      | cons c cs => exact ⟨c, cs, rfl⟩
    rw [hc, generateDays_cons, List.all_eq_true]
    intro d hd
    rw [List.mem_map] at hd
    obtain ⟨k, _, rfl⟩ := hd
    rw [List.any_eq_true]
    have hmem : cyclicPick c cs k ∈ c :: cs := List.get_mem _ _ _
    have h50 : (50 : ℚ) ≤ (cyclicPick c cs k).percent :=
      (mem_rankCandidates scored _ (hc ▸ hmem)).2
    exact ⟨cyclicPick c cs k, hmem, by simp [mkAssign, h50]⟩

def exScoredA : ScoredRecipe := ⟨4, "Salad", "green", 1, 1, 100⟩

lemma rank_single : rankCandidates [exScoredA] = [exScoredA] := by
  unfold rankCandidates
  rw [show ([exScoredA].filter fun r =>
      decide (0 < r.total) && decide ((50 : ℚ) ≤ r.percent)) = [exScoredA] from rfl]
  exact List.mergeSort_singleton _

/-- C10 witness: with one concrete qualifying candidate, every produced day
carries that candidate's recipe_id and match value, at least 50. -/
theorem plan_shape_invariant_witness :
    (generateDays (rankCandidates [exScoredA])).all (fun d =>
      (rankCandidates [exScoredA]).any fun c =>
        d.recipe_id == some c.id && d.matchPct == c.percent &&
          decide ((50 : ℚ) ≤ c.percent)) = true :=
  (plan_shape_invariant [exScoredA]).2.2 (by simp [rank_single])

end MealMatch
